import Mathlib

/-!
Verification of the mailgate helper functions and the AdminMorph removal
migration of the ESP-Website repository.

Python strings are modelled as Lean `String`; each Python `str` method used
by the source is given an explicit executable model over the character list
(`String.data`), so that every definition evaluates on concrete inputs and
the proofs are plain list inductions.

Sources embedded below:
- `esp/esp/dbmail/mailgate_helpers.py` (filter_recipients, resolve_aliases,
  resolve_recipients, parse_sender_email, lookup_sender, build_email_body)
- `esp/esp/program/modules/migrations/0047_remove_adminmorph.py`
  (remove_adminmorph_programmodule, restore_adminmorph_programmodule)
-/

namespace ESPWeb

/-! ## Models of the Python string primitives used by the source -/

/-- Characters stripped by Python `str.strip()` (the ASCII whitespace set;
the rare non-ASCII Unicode whitespace is not modelled). -/
def isSpaceChar (c : Char) : Bool :=
  c == ' ' || c == '\t' || c == '\n' || c == '\r' || c == '\x0b' || c == '\x0c'

/-- Drop leading and trailing whitespace from a character list. -/
def stripList (l : List Char) : List Char :=
  ((l.dropWhile isSpaceChar).reverse.dropWhile isSpaceChar).reverse

/-- Model of Python `str.strip()`: drop leading and trailing whitespace. -/
def pyStrip (s : String) : String :=
  ⟨stripList s.data⟩

/-- Model of Python `str.lower()` (character-wise lowering). -/
def pyLower (s : String) : String :=
  ⟨s.data.map Char.toLower⟩

/-- Model of Python `c in s` for a single character `c`. -/
def pyContains (s : String) (c : Char) : Bool :=
  s.data.contains c

/-- Model of Python `s.endswith(suffix)`. -/
def pyEndsWith (s suffix : String) : Bool :=
  suffix.data.isSuffixOf s.data

/-- Split a character list on a separator character, Python
`str.split(sep)` style: always returns at least one (possibly empty)
piece, and a trailing separator yields a trailing empty piece. -/
def splitChar (c : Char) : List Char → List (List Char)
  | [] => [[]]
  | x :: xs =>
    match splitChar c xs with
    | [] => [[]]
    | h :: t => if x == c then [] :: h :: t else (x :: h) :: t

/-- Model of Python `s.split(c)` for a one-character separator. -/
def pySplit (s : String) (c : Char) : List String :=
  (splitChar c s.data).map String.mk

/-- Expansion of one character under Python `html.escape` (with the default
`quote=True`).  The sequential replacements of `html.escape` are equivalent
to this character-wise expansion because no replacement output contains a
character that a later replacement rewrites. -/
def escChar (c : Char) : List Char :=
  if c = '&' then "&amp;".data
  else if c = '<' then "&lt;".data
  else if c = '>' then "&gt;".data
  else if c = '"' then "&quot;".data
  else if c = '\'' then "&#x27;".data
  else [c]

/-- Model of Python `html.escape(s)` (default `quote=True`). -/
def htmlEscape (s : String) : String :=
  ⟨(s.data.map escChar).flatten⟩

/-! ## Data model: `esp.dbmail.models.PlainRedirect` and `esp.users.models.ESPUser` -/

/-- The internal domain suffix constant `DOMAIN` of `mailgate_helpers.py`. -/
def DOMAIN : String := ".learningu.org"

/-- A `PlainRedirect` row: `original` is the local-part key, `destination`
a nullable comma-separated destination string. -/
structure PlainRedirect where
  original : String
  destination : Option String
deriving DecidableEq, Repr

/-- An `ESPUser` row: the fields used by the mailgate helpers
(`username`, `email`, `date_joined`, and the names of the auth groups the
user belongs to).  `date_joined` is modelled as a natural timestamp. -/
structure ESPUser where
  username : String
  email : String
  date_joined : Nat
  groups : List String
deriving DecidableEq, Repr

/-! ## `filter_recipients` -/

/-- Embedding of `filter_recipients(recipients, domain)`: for each
recipient, in order: if it ends with `domain` it is an alias; else if it
contains `@` it is a real recipient; else it is dropped (the source logs a
warning, a side effect outside the return value). -/
def filter_recipients (recipients : List String) (domain : String) :
    List String × List String :=
  match recipients with
  | [] => ([], [])
  | r :: rest =>
    let p := filter_recipients rest domain
    if pyEndsWith r domain then (p.1, r :: p.2)
    else if pyContains r '@' then (r :: p.1, p.2)
    else p

/-! ## `resolve_aliases` -/

/-- `[x.split('@')[0].lower() for x in aliases]`. -/
def local_parts (aliases : List String) : List String :=
  aliases.map (fun x => pyLower ((pySplit x '@').headD ""))

/-- The queryset `PlainRedirect.objects.annotate(original_lower=Lower("original"))
.filter(original_lower__in=local_parts).exclude(destination__isnull=True)
.exclude(destination='')`, over a list of rows. -/
def matching_redirects (redirects : List PlainRedirect) (lps : List String) :
    List PlainRedirect :=
  redirects.filter (fun r =>
    lps.contains (pyLower r.original)
      && !(r.destination == none) && !(r.destination == some ""))

/-- `itertools.chain.from_iterable(x.destination.split(',') if x.destination
else [] for x in redirects)`. -/
def redirect_addresses (redirects : List PlainRedirect) : List String :=
  (redirects.map (fun r =>
    match r.destination with
    | some d => if d == "" then [] else pySplit d ','
    | none => [])).flatten

/-- The queryset `ESPUser.objects.annotate(username_lower=Lower("username"))
.filter(username_lower__in=local_parts)`, over a list of rows. -/
def matching_users (users : List ESPUser) (lps : List String) : List ESPUser :=
  users.filter (fun u => lps.contains (pyLower u.username))

/-- Embedding of `resolve_aliases(aliases)` over an explicit database state
(`redirects` are the `PlainRedirect` rows, `users` the `ESPUser` rows).
The final loop strips each candidate address and keeps it only when it is
non-empty and does not end with `DOMAIN`. -/
def resolve_aliases (redirects : List PlainRedirect) (users : List ESPUser)
    (aliases : List String) : List String :=
  let lps := local_parts aliases
  let ra := redirect_addresses (matching_redirects redirects lps)
  let ua := (matching_users users lps).map (fun u => u.email)
  (ra ++ ua).filterMap (fun address =>
    let a := pyStrip address
    if a != "" && !(pyEndsWith a DOMAIN) then some a else none)

/-- Embedding of `resolve_recipients(recipients, domain)`:
`real_recipients + resolve_aliases(aliases)`. -/
def resolve_recipients (redirects : List PlainRedirect) (users : List ESPUser)
    (recipients : List String) (domain : String) : List String :=
  let p := filter_recipients recipients domain
  p.1 ++ resolve_aliases redirects users p.2

/-! ## `parse_sender_email` -/

deriving instance DecidableEq for Except

/-- The error message prefix used by the `AttributeError` raised on more
than one sender.  The exception is modelled as `Except.error`. -/
def moreThanOneSenderMsg : String := "More than one sender"

/-- The `'<' in e and '>' in e` extraction step of `parse_sender_email`:
`e.split('<')[1].split('>')[0]` when both brackets are present, the
untouched string otherwise. -/
def extract_angle (e : String) : String :=
  if pyContains e '<' && pyContains e '>' then
    (pySplit ((pySplit e '<').getD 1 "") '>').headD ""
  else e

/-- Embedding of `parse_sender_email(from_field)`.  Python falsiness of a
string argument (`if not from_field`) holds for `None` and `''`.
A raised `AttributeError` is modelled as `Except.error`. -/
def parse_sender_email (from_field : Option String) :
    Except String (Option String) :=
  match from_field with
  | none => Except.ok none
  | some s =>
    if s == "" then Except.ok none
    else
      let addresses := pySplit s ','
      if addresses.length == 0
          || (addresses.length == 1 && pyStrip (addresses.headD "") == "") then
        Except.ok none
      else if addresses.length != 1 then
        Except.error moreThanOneSenderMsg
      else
        Except.ok (some (extract_angle (pyStrip (addresses.headD ""))))

/-! ## `lookup_sender` -/

/-- `u.date_joined ≤ v.date_joined`: the ordering used by
`.order_by('date_joined')`. -/
def dateLe (u v : ESPUser) : Prop := u.date_joined ≤ v.date_joined

instance : DecidableRel dateLe :=
  fun u v => inferInstanceAs (Decidable (u.date_joined ≤ v.date_joined))

instance : IsTotal ESPUser dateLe :=
  ⟨fun a b => Nat.le_total a.date_joined b.date_joined⟩

instance : IsTrans ESPUser dateLe :=
  ⟨fun _ _ _ hab hbc => Nat.le_trans hab hbc⟩

/-- Model of `.order_by('date_joined')`: a stable sort by `date_joined`. -/
def sortByDate (l : List ESPUser) : List ESPUser :=
  List.insertionSort dateLe l

/-- The fixed role priority list of `lookup_sender`. -/
def roleOrder : List String :=
  ["Administrator", "Teacher", "Volunteer", "Student", "Educator"]

/-- The `for group_name in [...]` loop of `lookup_sender`: the first role
in `roles` held by at least one user yields the first (earliest-created,
since `users` is sorted) user holding it; `none` when no role matches. -/
def pickByRole (users : List ESPUser) : List String → Option ESPUser
  | [] => none
  | g :: gs =>
    match users.filter (fun x => x.groups.contains g) with
    | [] => pickByRole users gs
    | u :: _ => some u

/-- The candidate queryset of `lookup_sender`: by username (local part,
`iexact`) when the address ends with `email_host_sender`, else by full
email (`iexact`). -/
def sender_matches (db : List ESPUser) (email_address email_host_sender : String) :
    List ESPUser :=
  if pyEndsWith email_address email_host_sender then
    db.filter (fun u =>
      pyLower u.username == pyLower ((pySplit email_address '@').headD ""))
  else
    db.filter (fun u => pyLower u.email == pyLower email_address)

/-- The first role of `roleOrder` held by some user of `l`. -/
def first_role (l : List ESPUser) : Option String :=
  roleOrder.find? (fun g => l.any (fun x => x.groups.contains g))

/-- Embedding of `lookup_sender(email_address, email_host_sender)` over an
explicit list of `ESPUser` rows. -/
def lookup_sender (db : List ESPUser) (email_address email_host_sender : String) :
    Option ESPUser :=
  match sortByDate (sender_matches db email_address email_host_sender) with
  | [] => none
  | [u] => some u
  | u :: v :: rest => some ((pickByRole (u :: v :: rest) roleOrder).getD u)

/-! ## `build_email_body` -/

/-- Model of the `email.message.EmailMessage` interface used by
`build_email_body`: `preferred_content` is
`message.get_body(preferencelist=('html','plain')).get_content()`,
`preferred_is_html` tells whether that preferred body part is `text/html`,
and `content_type` is `message.get_content_type()` — the content type of
the message as a whole (e.g. `multipart/alternative` for a message with a
plain-text body and an HTML alternative). -/
structure EmailMsg where
  preferred_content : String
  preferred_is_html : Bool
  content_type : String
deriving DecidableEq, Repr

/-- The document skeleton text before the interpolated content. -/
def skeleton_head : String :=
  "<html>\n  <head>\n    <meta charset=\"UTF-8\">\n    <title>Email Content</title>\n  </head>\n  <body>\n    "

/-- The document skeleton text after the interpolated content. -/
def skeleton_tail : String := "\n  </body>\n</html>"

/-- Embedding of `build_email_body(message)`: escape the preferred content
exactly when `message.get_content_type() != 'text/html'`, then wrap it in
the fixed skeleton. -/
def build_email_body (m : EmailMsg) : String :=
  let content :=
    if m.content_type != "text/html" then htmlEscape m.preferred_content
    else m.preferred_content
  skeleton_head ++ content ++ skeleton_tail

/-! ## Migration 0047: removal of the AdminMorph ProgramModule -/

/-- A `ProgramModule` registry row: primary key and handler name. -/
structure PMod where
  id : Nat
  handler : String
deriving DecidableEq, Repr

/-- The state of the JSON file `_STATE_FILE`: missing, present but not
valid JSON, or valid JSON with a `program_ids` list. -/
inductive FileState where
  | absent : FileState
  | malformed : FileState
  | good : List Nat → FileState
deriving DecidableEq, Repr

/-- The world the migration functions act on: the `ProgramModule` registry
rows, the existing `Program` ids, the `Program.modules` many-to-many rows
as `(program id, module id)` pairs, and the on-disk state file. -/
structure MigWorld where
  modules : List PMod
  programs : List Nat
  links : List (Nat × Nat)
  file : FileState
deriving DecidableEq, Repr

/-- The queryset `ProgramModule.objects.filter(handler='AdminMorph')`. -/
def adminmorph_modules (w : MigWorld) : List PMod :=
  w.modules.filter (fun m => m.handler == "AdminMorph")

/-- A sort on naturals (model of `sorted(...)`). -/
def sortNat (l : List Nat) : List Nat :=
  List.insertionSort (fun a b => a ≤ b) l

/-- `ids = sorted(seen_ids)`: the distinct ids of programs linked to any
AdminMorph registry row, sorted. -/
def affected_ids (w : MigWorld) : List Nat :=
  sortNat ((w.links.filter (fun l =>
    (adminmorph_modules w).any (fun m => m.id == l.2))).map Prod.fst).dedup

/-- `adminmorph_qs.delete()`: remove the AdminMorph registry rows, which
cascades to the `Program.modules` M2M rows pointing at them. -/
def delete_adminmorph (w : MigWorld) : MigWorld :=
  { w with
    modules := w.modules.filter (fun m => !(m.handler == "AdminMorph")),
    links := w.links.filter (fun l =>
      !((adminmorph_modules w).any (fun m => m.id == l.2))) }

/-- Embedding of `remove_adminmorph_programmodule`.  `writeOk` tells
whether the `open/json.dump` of the state file succeeds; a raised
(propagated) `OSError` is modelled as `Except.error w`, carrying the
unchanged world (the raise happens before any row is deleted).  When the
write succeeds the file holds the affected ids; when it fails but no
program was affected, the failure is tolerated and deletion proceeds with
the file untouched. -/
def remove_adminmorph (w : MigWorld) (writeOk : Bool) :
    Except MigWorld MigWorld :=
  let ids := affected_ids w
  if writeOk then
    Except.ok (delete_adminmorph { w with file := FileState.good ids })
  else if ids.isEmpty then
    Except.ok (delete_adminmorph w)
  else
    Except.error w

/-- A fresh primary key for `ProgramModule.objects.create` (model of the
database auto-increment). -/
def fresh_module_id (mods : List PMod) : Nat :=
  (mods.map (fun m => m.id)).foldr max 0 + 1

/-- The `get_or_create(handler='AdminMorph', defaults=...)` step: the id
of the AdminMorph registry row (existing or fresh) and the resulting row
table. -/
def adminmorph_target (mods : List PMod) : Nat × List PMod :=
  match mods.find? (fun m => m.handler == "AdminMorph") with
  | some m => (m.id, mods)
  | none =>
    (fresh_module_id mods,
     mods ++ [{ id := fresh_module_id mods, handler := "AdminMorph" }])

/-- The state-file read of the reverse migration: `OSError` (missing file)
and `ValueError` (malformed JSON) are caught and yield the empty id
list. -/
def read_state_ids (f : FileState) : List Nat :=
  match f with
  | FileState.good ids => ids
  | _ => []

/-- Embedding of `restore_adminmorph_programmodule`.  `get_or_create`
reuses an existing AdminMorph row or appends a fresh one; each existing
program whose id is in the recorded list is linked to the row (M2M `add`
is idempotent, so already-present links are not duplicated); finally the
state file is removed. -/
def restore_adminmorph (w : MigWorld) : MigWorld :=
  let p := adminmorph_target w.modules
  let ids := read_state_ids w.file
  let newLinks := (w.programs.filter (fun q => ids.contains q)).map
    (fun q => (q, p.1))
  { modules := p.2,
    programs := w.programs,
    links := w.links ++ newLinks.filter (fun l => !(w.links.contains l)),
    file := FileState.absent }

/-! ## Helper lemmas -/

theorem dropWhile_self {α : Type} (p : α → Bool) (l : List α) :
    (l.dropWhile p).dropWhile p = l.dropWhile p := by
  induction l with
  | nil => rfl
  | cons x xs ih =>
    by_cases h : p x
    · simp [List.dropWhile_cons, h, ih]
    · simp [List.dropWhile_cons, h]

theorem head_dropWhile_false {α : Type} (p : α → Bool) (l : List α) (x : α)
    (h : (l.dropWhile p).head? = some x) : p x = false := by
  induction l with
  | nil => simp [List.dropWhile] at h
  | cons y ys ih =>
    by_cases hy : p y
    · rw [List.dropWhile_cons, if_pos hy] at h
      exact ih h
    · rw [List.dropWhile_cons, if_neg hy] at h
      injection h with h
      subst h
      exact Bool.of_not_eq_true hy

theorem dropWhile_suffix_ex {α : Type} (p : α → Bool) (l : List α) :
    ∃ s, s ++ l.dropWhile p = l := by
  induction l with
  | nil => exact ⟨[], rfl⟩
  | cons x xs ih =>
    by_cases h : p x
    · obtain ⟨s, hs⟩ := ih
      exact ⟨x :: s, by simp [List.dropWhile_cons, h, hs]⟩
    · exact ⟨[], by simp [List.dropWhile_cons, h]⟩

theorem stripList_idem (l : List Char) : stripList (stripList l) = stripList l := by
  unfold stripList
  have hrev : ((((l.dropWhile isSpaceChar).reverse.dropWhile isSpaceChar).reverse).reverse)
      = (l.dropWhile isSpaceChar).reverse.dropWhile isSpaceChar := List.reverse_reverse _
  have h1 : (((l.dropWhile isSpaceChar).reverse.dropWhile isSpaceChar).reverse).dropWhile isSpaceChar
      = ((l.dropWhile isSpaceChar).reverse.dropWhile isSpaceChar).reverse := by
    cases hB : ((l.dropWhile isSpaceChar).reverse.dropWhile isSpaceChar).reverse with
    | nil => rfl
    | cons x xs =>
      obtain ⟨s, hs⟩ := dropWhile_suffix_ex isSpaceChar (l.dropWhile isSpaceChar).reverse
      have hBA : (x :: xs) ++ s.reverse = l.dropWhile isSpaceChar := by
        rw [← hB]
        calc ((l.dropWhile isSpaceChar).reverse.dropWhile isSpaceChar).reverse ++ s.reverse
            = (s ++ (l.dropWhile isSpaceChar).reverse.dropWhile isSpaceChar).reverse := by
              rw [List.reverse_append]
          _ = l.dropWhile isSpaceChar := by rw [hs, List.reverse_reverse]
      have hhead : (l.dropWhile isSpaceChar).head? = some x := by
        rw [← hBA]; rfl
      have hx : isSpaceChar x = false := head_dropWhile_false isSpaceChar l x hhead
      rw [List.dropWhile_cons, if_neg (by simp [hx])]
  rw [h1, hrev, dropWhile_self]

theorem pyStrip_idem (s : String) : pyStrip (pyStrip s) = pyStrip s := by
  show (⟨stripList (stripList s.data)⟩ : String) = ⟨stripList s.data⟩
  rw [stripList_idem]

theorem filter_recipients_fst (recipients : List String) (d : String) :
    (filter_recipients recipients d).1
      = recipients.filter (fun r => !(pyEndsWith r d) && pyContains r '@') := by
  induction recipients with
  | nil => rfl
  | cons r rest ih =>
    by_cases h1 : pyEndsWith r d
    · simp [filter_recipients, h1, ih, List.filter_cons]
    · by_cases h2 : pyContains r '@' <;>
        simp [filter_recipients, h1, h2, ih, List.filter_cons]

theorem filter_recipients_snd (recipients : List String) (d : String) :
    (filter_recipients recipients d).2
      = recipients.filter (fun r => pyEndsWith r d) := by
  induction recipients with
  | nil => rfl
  | cons r rest ih =>
    by_cases h1 : pyEndsWith r d
    · simp [filter_recipients, h1, ih, List.filter_cons]
    · by_cases h2 : pyContains r '@' <;>
        simp [filter_recipients, h1, h2, ih, List.filter_cons]

theorem resolve_aliases_nil (redirects : List PlainRedirect) (users : List ESPUser) :
    resolve_aliases redirects users [] = [] := by
  simp [resolve_aliases, local_parts, matching_redirects, redirect_addresses,
    matching_users]

theorem pickByRole_eq (users : List ESPUser) (roles : List String) :
    pickByRole users roles
      = (roles.find? (fun g => users.any (fun x => x.groups.contains g))).bind
          (fun g => (users.filter (fun x => x.groups.contains g)).head?) := by
  induction roles with
  | nil => rfl
  | cons g gs ih =>
    cases hf : users.filter (fun x => x.groups.contains g) with
    | nil =>
      have hany : users.any (fun x => x.groups.contains g) = false := by
        rw [Bool.eq_false_iff]
        intro hc
        obtain ⟨x, hx, hpx⟩ := List.any_eq_true.mp hc
        have : x ∈ users.filter (fun x => x.groups.contains g) :=
          List.mem_filter.mpr ⟨hx, hpx⟩
        rw [hf] at this
        exact absurd this (List.not_mem_nil x)
      have hfind : List.find? (fun g => users.any (fun x => x.groups.contains g)) (g :: gs)
          = List.find? (fun g => users.any (fun x => x.groups.contains g)) gs :=
        List.find?_cons_of_neg gs (by simpa using hany)
      rw [hfind, ← ih]
      show (match users.filter (fun x => x.groups.contains g) with
            | [] => pickByRole users gs
            | u :: _ => some u) = pickByRole users gs
      rw [hf]
    | cons u t =>
      have hany : users.any (fun x => x.groups.contains g) = true := by
        rw [List.any_eq_true]
        have hu : u ∈ users.filter (fun x => x.groups.contains g) := by
          rw [hf]; exact List.mem_cons_self u t
        exact ⟨u, List.mem_of_mem_filter hu, (List.mem_filter.mp hu).2⟩
      have hfind : List.find? (fun g => users.any (fun x => x.groups.contains g)) (g :: gs)
          = some g :=
        List.find?_cons_of_pos gs (by simpa using hany)
      rw [hfind]
      show (match users.filter (fun x => x.groups.contains g) with
            | [] => pickByRole users gs
            | u :: _ => some u)
          = (users.filter (fun x => x.groups.contains g)).head?
      rw [hf]
      rfl

/-! ## Claim theorems -/

/-- Claim C1: for every database state (any lists of `PlainRedirect` and
`ESPUser` rows) and every input list of alias addresses, no element of the
list returned by `resolve_aliases` ends with the internal domain suffix
`.learningu.org`. -/
theorem resolve_aliases_no_internal (redirects : List PlainRedirect)
    (users : List ESPUser) (aliases : List String) :
    (resolve_aliases redirects users aliases).all
      (fun a => !(pyEndsWith a DOMAIN)) = true := by
  rw [List.all_eq_true]
  intro x hx
  simp only [resolve_aliases, List.mem_filterMap] at hx
  obtain ⟨a, _, hfa⟩ := hx
  by_cases hcond : (pyStrip a != "" && !(pyEndsWith (pyStrip a) DOMAIN)) = true
  · rw [if_pos hcond] at hfa
    have hax : pyStrip a = x := Option.some.inj hfa
    rw [Bool.and_eq_true] at hcond
    rw [← hax]
    exact hcond.2
  · rw [if_neg hcond] at hfa
    exact absurd hfa (by simp)

/-- Claim C2 counterexample: the address `x.learningu.org` contains no `@`
sign, yet `filter_recipients` places it in the aliases output (the
`endswith` test runs before the `@` test), refuting "every address not
containing an `@` sign appears in neither output list". -/
theorem filter_recipients_no_at_cex :
    pyContains "x.learningu.org" '@' = false
    ∧ "x.learningu.org" ∈ (filter_recipients ["x.learningu.org"] DOMAIN).2 := by
  decide

/-- Claim C2 (amended): `filter_recipients` partitions the input by two
filters — the aliases output is exactly the input addresses ending in the
suffix, and the real-recipients output is exactly the input addresses that
do not end in the suffix but contain `@`; hence each input address lands
in exactly one of {real, alias, dropped}, and an address lacking `@` AND
not ending in the suffix appears in neither output. -/
theorem filter_recipients_partition (recipients : List String) (d : String) :
    (filter_recipients recipients d).1
        = recipients.filter (fun r => !(pyEndsWith r d) && pyContains r '@')
    ∧ (filter_recipients recipients d).2
        = recipients.filter (fun r => pyEndsWith r d)
    ∧ ∀ r, pyContains r '@' = false → pyEndsWith r d = false →
        r ∉ (filter_recipients recipients d).1
        ∧ r ∉ (filter_recipients recipients d).2 := by
  refine ⟨filter_recipients_fst recipients d, filter_recipients_snd recipients d,
    fun r h1 h2 => ⟨?_, ?_⟩⟩
  · rw [filter_recipients_fst]
    intro hmem
    have := (List.mem_filter.mp hmem).2
    rw [h1] at this
    simp at this
  · rw [filter_recipients_snd]
    intro hmem
    have := (List.mem_filter.mp hmem).2
    rw [h2] at this
    exact absurd this (by simp)

/-- Witness for C2: instantiation on a concrete list; `no-at.example` has
no `@` and no suffix match, so it is in neither output. -/
theorem filter_recipients_partition_witness :
    pyContains "no-at.example" '@' = false
    ∧ "no-at.example" ∉ (filter_recipients ["a@b.com", "no-at.example"] DOMAIN).1
    ∧ "no-at.example" ∉ (filter_recipients ["a@b.com", "no-at.example"] DOMAIN).2 := by
  have h := ((filter_recipients_partition ["a@b.com", "no-at.example"] DOMAIN).2.2
    "no-at.example" (by decide) (by decide))
  exact ⟨by decide, h.1, h.2⟩

/-- Claim C10: every address returned by `resolve_aliases` is non-empty
and already whitespace-stripped (stripping it again is the identity):
candidates that are empty after stripping are dropped. -/
theorem resolve_aliases_trimmed (redirects : List PlainRedirect)
    (users : List ESPUser) (aliases : List String) :
    (resolve_aliases redirects users aliases).all
      (fun a => a != "" && (pyStrip a == a)) = true := by
  rw [List.all_eq_true]
  intro x hx
  simp only [resolve_aliases, List.mem_filterMap] at hx
  obtain ⟨a, _, hfa⟩ := hx
  by_cases hcond : (pyStrip a != "" && !(pyEndsWith (pyStrip a) DOMAIN)) = true
  · rw [if_pos hcond] at hfa
    have hax : pyStrip a = x := Option.some.inj hfa
    rw [Bool.and_eq_true] at hcond
    rw [← hax, Bool.and_eq_true]
    refine ⟨hcond.1, ?_⟩
    rw [beq_iff_eq]
    exact pyStrip_idem a
  · rw [if_neg hcond] at hfa
    exact absurd hfa (by simp)

/-- Claim C8 counterexample: `foobar` does not end with the domain suffix,
so the input list `["foobar"]` consists only of non-alias addresses, yet
`resolve_recipients` does not return it unchanged — the address lacks `@`
and is dropped by `filter_recipients`. -/
theorem resolve_recipients_identity_cex :
    pyEndsWith "foobar" DOMAIN = false
    ∧ resolve_recipients [] [] ["foobar"] DOMAIN ≠ ["foobar"] := by
  decide

/-- Claim C8 (amended): `resolve_recipients` on the empty list returns the
empty list, and on every list of addresses that do not end in the domain
suffix AND contain an `@` sign it is the identity, for every database
state. -/
theorem resolve_recipients_identity (redirects : List PlainRedirect)
    (users : List ESPUser) (recipients : List String) (d : String)
    (h : ∀ r ∈ recipients, pyEndsWith r d = false ∧ pyContains r '@' = true) :
    resolve_recipients redirects users recipients d = recipients := by
  have h1 : (filter_recipients recipients d).1 = recipients := by
    rw [filter_recipients_fst]
    refine List.filter_eq_self.mpr (fun a ha => ?_)
    rcases h a ha with ⟨he, hc⟩
    simp [he, hc]
  have h2 : (filter_recipients recipients d).2 = [] := by
    rw [filter_recipients_snd]
    refine List.filter_eq_nil_iff.mpr (fun a ha => ?_)
    simp [(h a ha).1]
  show (filter_recipients recipients d).1
      ++ resolve_aliases redirects users (filter_recipients recipients d).2
      = recipients
  rw [h1, h2, resolve_aliases_nil, List.append_nil]

/-- Witness for C8: the amended identity on a concrete singleton list and
on the empty list, both obtained from the theorem. -/
theorem resolve_recipients_identity_witness :
    resolve_recipients [] [] ["a@gmail.com"] DOMAIN = ["a@gmail.com"]
    ∧ resolve_recipients [] [] [] DOMAIN = [] :=
  ⟨resolve_recipients_identity [] [] ["a@gmail.com"] DOMAIN (by decide),
   resolve_recipients_identity [] [] [] DOMAIN (by decide)⟩

/-- Claim C9: for every redirect row whose (lower-cased) key matches one of
the aliases' local parts and whose destination is a non-null, non-empty
string, every comma-separated component of the destination that is
non-empty after stripping and does not end in the internal suffix appears
(stripped) in the output of `resolve_aliases`. -/
theorem resolve_aliases_expands_commas
    (redirects : List PlainRedirect) (users : List ESPUser)
    (aliases : List String) (r : PlainRedirect) (hr : r ∈ redirects)
    (d : String) (hd : r.destination = some d) (hdne : d ≠ "")
    (hmatch : (local_parts aliases).contains (pyLower r.original) = true)
    (c : String) (hc : c ∈ pySplit d ',')
    (hne : pyStrip c ≠ "") (hext : pyEndsWith (pyStrip c) DOMAIN = false) :
    pyStrip c ∈ resolve_aliases redirects users aliases := by
  simp only [resolve_aliases]
  apply List.mem_filterMap.mpr
  refine ⟨c, ?_, ?_⟩
  · apply List.mem_append_left
    simp only [redirect_addresses]
    apply List.mem_flatten.mpr
    refine ⟨pySplit d ',', ?_, hc⟩
    apply List.mem_map.mpr
    refine ⟨r, ?_, ?_⟩
    · apply List.mem_filter.mpr
      refine ⟨hr, ?_⟩
      rw [hd]
      simp [hdne]
      simpa using hmatch
    · rw [hd]
      simp [hdne]
  · have hbne : (pyStrip c != "") = true := bne_iff_ne.mpr hne
    simp [hbne, hext]

/-- Witness for C9: the redirect `team -> "a@x.com,b@y.com"` matched by the
alias `team@site.learningu.org` puts `b@y.com` in the resolved list. -/
theorem resolve_aliases_expands_commas_witness :
    "b@y.com" ∈ pySplit "a@x.com,b@y.com" ','
    ∧ "b@y.com" ∈ resolve_aliases [⟨"team", some "a@x.com,b@y.com"⟩] []
        ["team@site.learningu.org"] := by
  refine ⟨by decide, ?_⟩
  have h := resolve_aliases_expands_commas
    [⟨"team", some "a@x.com,b@y.com"⟩] [] ["team@site.learningu.org"]
    ⟨"team", some "a@x.com,b@y.com"⟩ (by decide)
    "a@x.com,b@y.com" rfl (by decide) (by decide)
    "b@y.com" (by decide) (by decide) (by decide)
  simpa using h

/-- Claim C3 counterexample: splitting `a@b.com,` on commas yields exactly
one non-empty candidate, so the claim predicts the address `a@b.com` is
returned; the code raises the "more than one sender" error because the
split produced two candidates (one of them empty). -/
theorem parse_sender_email_cex :
    (pySplit "a@b.com," ',').filter (fun c => !(pyStrip c == "")) = ["a@b.com"]
    ∧ parse_sender_email (some "a@b.com,") = Except.error moreThanOneSenderMsg := by
  decide

/-- Claim C3 (amended): `parse_sender_email` returns no-sender for `None`,
the empty string, and any input whose comma-split is a single candidate
that is blank after stripping; it raises the "more than one sender" error
exactly when the comma-split yields more than one candidate, empty or not;
otherwise it returns the single candidate, stripped, with the text between
the first `<` and the following first `>` extracted when both characters
occur. -/
theorem parse_sender_email_spec (s : String) :
    parse_sender_email none = Except.ok none
    ∧ parse_sender_email (some "") = Except.ok none
    ∧ ((pySplit s ',').length = 1 → pyStrip ((pySplit s ',').headD "") = "" →
        parse_sender_email (some s) = Except.ok none)
    ∧ (1 < (pySplit s ',').length →
        parse_sender_email (some s) = Except.error moreThanOneSenderMsg)
    ∧ ((pySplit s ',').length = 1 → pyStrip ((pySplit s ',').headD "") ≠ "" →
        parse_sender_email (some s)
          = Except.ok (some (extract_angle (pyStrip ((pySplit s ',').headD ""))))) := by
  refine ⟨rfl, by decide, ?_, ?_, ?_⟩
  · intro h1 h2
    by_cases hs : s = ""
    · rw [hs]; decide
    · obtain ⟨a, hsp⟩ : ∃ a, pySplit s ',' = [a] := by
        cases hq : pySplit s ',' with
        | nil => rw [hq] at h1; simp at h1
        | cons a t =>
          have ht : t = [] := by
            rw [hq] at h1
            simpa using h1
          exact ⟨a, by rw [ht]⟩
      rw [hsp] at h2
      simp only [List.headD] at h2
      have hbs : (s == "") = false := beq_eq_false_iff_ne.mpr hs
      simp [parse_sender_email, hsp, hbs, h2]
  · intro h
    obtain ⟨a, b, t, hsp⟩ : ∃ a b t, pySplit s ',' = a :: b :: t := by
      cases hq : pySplit s ',' with
      | nil => rw [hq] at h; simp at h
      | cons a t =>
        cases t with
        | nil => rw [hq] at h; simp at h
        | cons b t2 => exact ⟨a, b, t2, rfl⟩
    have hs : s ≠ "" := by
      intro e
      rw [e] at h
      exact absurd h (by decide)
    have hbs : (s == "") = false := beq_eq_false_iff_ne.mpr hs
    have h0 : ((a :: b :: t).length == 0) = false := by simp
    have h1 : ((a :: b :: t).length == 1) = false := by
      simp only [beq_eq_false_iff_ne, List.length_cons]
      omega
    simp [parse_sender_email, hsp, hbs, h0, h1]
  · intro h1 h2
    obtain ⟨a, hsp⟩ : ∃ a, pySplit s ',' = [a] := by
      cases hq : pySplit s ',' with
      | nil => rw [hq] at h1; simp at h1
      | cons a t =>
        have ht : t = [] := by
          rw [hq] at h1
          simpa using h1
        exact ⟨a, by rw [ht]⟩
    have hs : s ≠ "" := by
      intro e
      rw [e] at h2
      exact h2 (by decide)
    rw [hsp] at h2
    simp only [List.headD] at h2
    have hbs : (s == "") = false := beq_eq_false_iff_ne.mpr hs
    have hb2 : (pyStrip a == "") = false := beq_eq_false_iff_ne.mpr h2
    simp [parse_sender_email, hsp, hbs, hb2]

/-- Witness for C3: the no-sender cases, the display-name extraction, and
the multi-candidate error on concrete inputs, all through the spec
theorem. -/
theorem parse_sender_email_spec_witness :
    parse_sender_email none = Except.ok none
    ∧ parse_sender_email (some "  ") = Except.ok none
    ∧ parse_sender_email (some "A <a@b.com>") = Except.ok (some "a@b.com")
    ∧ parse_sender_email (some "a@b.com,c@d.com")
        = Except.error moreThanOneSenderMsg := by
  refine ⟨(parse_sender_email_spec "").1, ?_, ?_, ?_⟩
  · exact (parse_sender_email_spec "  ").2.2.1 (by decide) (by decide)
  · have h := (parse_sender_email_spec "A <a@b.com>").2.2.2.2 (by decide) (by decide)
    rw [h]
    decide
  · exact (parse_sender_email_spec "a@b.com,c@d.com").2.2.2.1 (by decide)

/-- Claim C4: when at least two accounts match the sender address,
`lookup_sender` returns an account `u` of the matching set such that: if
some role of the fixed order Administrator, Teacher, Volunteer, Student,
Educator is held by a matching account, then for the first such role `g`,
`u` holds `g` and is earliest-created among the matching holders of `g`;
and if no matching account holds any of the five roles, `u` is
earliest-created among all matching accounts. -/
theorem lookup_sender_role_priority (db : List ESPUser) (ea ehs : String)
    (h2 : 2 ≤ (sender_matches db ea ehs).length) :
    ∃ u, lookup_sender db ea ehs = some u ∧ u ∈ sender_matches db ea ehs ∧
      (∀ g, first_role (sender_matches db ea ehs) = some g →
          u.groups.contains g = true ∧
          ∀ v ∈ sender_matches db ea ehs, v.groups.contains g = true →
            u.date_joined ≤ v.date_joined) ∧
      (first_role (sender_matches db ea ehs) = none →
          ∀ v ∈ sender_matches db ea ehs, u.date_joined ≤ v.date_joined) := by
  have hperm : (List.insertionSort dateLe (sender_matches db ea ehs)).Perm
      (sender_matches db ea ehs) :=
    List.perm_insertionSort dateLe (sender_matches db ea ehs)
  have hmem : ∀ x, x ∈ List.insertionSort dateLe (sender_matches db ea ehs)
      ↔ x ∈ sender_matches db ea ehs := fun x => hperm.mem_iff
  have hsorted : List.Pairwise dateLe
      (List.insertionSort dateLe (sender_matches db ea ehs)) :=
    List.sorted_insertionSort dateLe (sender_matches db ea ehs)
  have hlen : (List.insertionSort dateLe (sender_matches db ea ehs)).length
      = (sender_matches db ea ehs).length := hperm.length_eq
  obtain ⟨a, b, rest, hus⟩ : ∃ a b rest,
      List.insertionSort dateLe (sender_matches db ea ehs) = a :: b :: rest := by
    cases hu : List.insertionSort dateLe (sender_matches db ea ehs) with
    | nil => rw [hu] at hlen; simp at hlen; omega
    | cons a tl =>
      cases tl with
      | nil => rw [hu] at hlen; simp at hlen; omega
      | cons b rest => exact ⟨a, b, rest, rfl⟩
  have hlookup : lookup_sender db ea ehs
      = some ((pickByRole (a :: b :: rest) roleOrder).getD a) := by
    show (match List.insertionSort dateLe (sender_matches db ea ehs) with
          | [] => none
          | [u] => some u
          | u :: v :: rest => some ((pickByRole (u :: v :: rest) roleOrder).getD u))
        = some ((pickByRole (a :: b :: rest) roleOrder).getD a)
    rw [hus]
  rw [pickByRole_eq] at hlookup
  have hany : (fun g => (a :: b :: rest).any (fun x => x.groups.contains g))
      = (fun g => (sender_matches db ea ehs).any (fun x => x.groups.contains g)) := by
    funext g
    rw [Bool.eq_iff_iff, List.any_eq_true, List.any_eq_true]
    constructor
    · rintro ⟨x, hx, hpx⟩
      exact ⟨x, (hmem x).mp (hus ▸ hx), hpx⟩
    · rintro ⟨x, hx, hpx⟩
      exact ⟨x, hus ▸ ((hmem x).mpr hx), hpx⟩
  rw [hany] at hlookup
  cases hfr : first_role (sender_matches db ea ehs) with
  | some g =>
    have hfind : List.find?
        (fun g => (sender_matches db ea ehs).any (fun x => x.groups.contains g))
        roleOrder = some g := hfr
    rw [hfind] at hlookup
    have hpg := List.find?_some hfind
    obtain ⟨w, t, hft⟩ : ∃ w t,
        (a :: b :: rest).filter (fun x => x.groups.contains g) = w :: t := by
      cases hf : (a :: b :: rest).filter (fun x => x.groups.contains g) with
      | nil =>
        exfalso
        obtain ⟨x, hx, hpx⟩ := List.any_eq_true.mp hpg
        have hx' : x ∈ (a :: b :: rest).filter (fun x => x.groups.contains g) :=
          List.mem_filter.mpr ⟨hus ▸ ((hmem x).mpr hx), hpx⟩
        rw [hf] at hx'
        exact absurd hx' (List.not_mem_nil x)
      | cons w t => exact ⟨w, t, rfl⟩
    simp only [Option.bind_eq_bind, Option.some_bind] at hlookup
    rw [hft] at hlookup
    simp only [List.head?_cons, Option.getD_some] at hlookup
    have hwf : w ∈ (a :: b :: rest).filter (fun x => x.groups.contains g) := by
      rw [hft]; exact List.mem_cons_self w t
    have hwmem : w ∈ sender_matches db ea ehs :=
      (hmem w).mp (hus ▸ List.mem_of_mem_filter hwf)
    refine ⟨w, hlookup, hwmem, ?_, ?_⟩
    · intro g' hg'
      injection hg' with e
      subst e
      refine ⟨(List.mem_filter.mp hwf).2, ?_⟩
      intro v hv hvp
      have hv' : v ∈ a :: b :: rest := hus ▸ ((hmem v).mpr hv)
      have hvf : v ∈ (a :: b :: rest).filter (fun x => x.groups.contains g) :=
        List.mem_filter.mpr ⟨hv', hvp⟩
      rw [hft] at hvf
      have hpw : List.Pairwise dateLe (w :: t) := by
        rw [← hft]
        exact (hus ▸ hsorted).filter _
      rcases List.mem_cons.mp hvf with e | hvt
      · rw [e]
      · exact (List.pairwise_cons.mp hpw).1 v hvt
    · intro hnone
      cases hnone
  | none =>
    have hfind : List.find?
        (fun g => (sender_matches db ea ehs).any (fun x => x.groups.contains g))
        roleOrder = none := hfr
    rw [hfind] at hlookup
    simp only [Option.bind_eq_bind, Option.none_bind, Option.getD_none] at hlookup
    have hamem : a ∈ sender_matches db ea ehs :=
      (hmem a).mp (hus ▸ List.mem_cons_self a (b :: rest))
    refine ⟨a, hlookup, hamem, ?_, ?_⟩
    · intro g hg
      cases hg
    · intro _ v hv
      have hv' : v ∈ a :: b :: rest := hus ▸ ((hmem v).mpr hv)
      have hpw : List.Pairwise dateLe (a :: b :: rest) := hus ▸ hsorted
      rcases List.mem_cons.mp hv' with e | hvt
      · rw [e]
      · exact (List.pairwise_cons.mp hpw).1 v hvt

/-- Witness for C4: two accounts share `dup@gmail.com`; the Student was
created first (timestamp 1), the Teacher later (timestamp 2); the Teacher
account is returned, and the role-priority theorem applies. -/
theorem lookup_sender_role_priority_witness :
    2 ≤ (sender_matches
        [⟨"user_s", "dup@gmail.com", 1, ["Student"]⟩,
         ⟨"user_t", "dup@gmail.com", 2, ["Teacher"]⟩]
        "dup@gmail.com" "test.learningu.org").length
    ∧ lookup_sender
        [⟨"user_s", "dup@gmail.com", 1, ["Student"]⟩,
         ⟨"user_t", "dup@gmail.com", 2, ["Teacher"]⟩]
        "dup@gmail.com" "test.learningu.org"
        = some ⟨"user_t", "dup@gmail.com", 2, ["Teacher"]⟩
    ∧ ∃ u, lookup_sender
        [⟨"user_s", "dup@gmail.com", 1, ["Student"]⟩,
         ⟨"user_t", "dup@gmail.com", 2, ["Teacher"]⟩]
        "dup@gmail.com" "test.learningu.org" = some u
      ∧ u ∈ sender_matches
          [⟨"user_s", "dup@gmail.com", 1, ["Student"]⟩,
           ⟨"user_t", "dup@gmail.com", 2, ["Teacher"]⟩]
          "dup@gmail.com" "test.learningu.org"
      ∧ (∀ g, first_role (sender_matches
            [⟨"user_s", "dup@gmail.com", 1, ["Student"]⟩,
             ⟨"user_t", "dup@gmail.com", 2, ["Teacher"]⟩]
            "dup@gmail.com" "test.learningu.org") = some g →
          u.groups.contains g = true ∧
          ∀ v ∈ sender_matches
              [⟨"user_s", "dup@gmail.com", 1, ["Student"]⟩,
               ⟨"user_t", "dup@gmail.com", 2, ["Teacher"]⟩]
              "dup@gmail.com" "test.learningu.org",
            v.groups.contains g = true → u.date_joined ≤ v.date_joined)
      ∧ (first_role (sender_matches
            [⟨"user_s", "dup@gmail.com", 1, ["Student"]⟩,
             ⟨"user_t", "dup@gmail.com", 2, ["Teacher"]⟩]
            "dup@gmail.com" "test.learningu.org") = none →
          ∀ v ∈ sender_matches
              [⟨"user_s", "dup@gmail.com", 1, ["Student"]⟩,
               ⟨"user_t", "dup@gmail.com", 2, ["Teacher"]⟩]
              "dup@gmail.com" "test.learningu.org",
            u.date_joined ≤ v.date_joined) :=
  ⟨by decide, by decide,
   lookup_sender_role_priority
     [⟨"user_s", "dup@gmail.com", 1, ["Student"]⟩,
      ⟨"user_t", "dup@gmail.com", 2, ["Teacher"]⟩]
     "dup@gmail.com" "test.learningu.org" (by decide)⟩

/-- Claim C5: the forward migration raises — propagating the failure with
the world unchanged (the `Except.error` carries the input world: no
registry row and no link was deleted) — exactly when the state-file write
fails while at least one program association exists; when the write
succeeds, or fails with no associations, it returns a world in which the
AdminMorph registry rows are deleted. -/
theorem remove_adminmorph_raises_iff (w : MigWorld) (writeOk : Bool) :
    (writeOk = false → affected_ids w ≠ [] →
      remove_adminmorph w writeOk = Except.error w)
    ∧ (writeOk = true ∨ affected_ids w = [] →
      ∃ w', remove_adminmorph w writeOk = Except.ok w'
        ∧ w'.modules = w.modules.filter (fun m => !(m.handler == "AdminMorph"))) := by
  constructor
  · intro hw hids
    rcases h : affected_ids w with _ | ⟨i, is⟩
    · exact absurd h hids
    · subst hw
      simp [remove_adminmorph, h]
  · intro h
    rcases h with hw | hids
    · subst hw
      refine ⟨delete_adminmorph { w with file := FileState.good (affected_ids w) },
        ?_, rfl⟩
      simp [remove_adminmorph]
    · cases writeOk with
      | true =>
        refine ⟨delete_adminmorph { w with file := FileState.good (affected_ids w) },
          ?_, rfl⟩
        simp [remove_adminmorph]
      | false =>
        refine ⟨delete_adminmorph w, ?_, rfl⟩
        simp [remove_adminmorph, hids]

/-- Witness for C5: a world with one AdminMorph row linked to program 10:
a failed write raises with the world unchanged; a successful write deletes
the registry row. -/
theorem remove_adminmorph_raises_iff_witness :
    remove_adminmorph
        ⟨[⟨1, "AdminMorph"⟩, ⟨2, "Other"⟩], [10], [(10, 1)], FileState.absent⟩ false
      = Except.error
        ⟨[⟨1, "AdminMorph"⟩, ⟨2, "Other"⟩], [10], [(10, 1)], FileState.absent⟩
    ∧ ∃ w', remove_adminmorph
        ⟨[⟨1, "AdminMorph"⟩, ⟨2, "Other"⟩], [10], [(10, 1)], FileState.absent⟩ true
      = Except.ok w'
      ∧ w'.modules = [⟨1, "AdminMorph"⟩, ⟨2, "Other"⟩].filter
          (fun m => !(m.handler == "AdminMorph")) :=
  ⟨(remove_adminmorph_raises_iff
      ⟨[⟨1, "AdminMorph"⟩, ⟨2, "Other"⟩], [10], [(10, 1)], FileState.absent⟩ false).1
      rfl (by decide),
   (remove_adminmorph_raises_iff
      ⟨[⟨1, "AdminMorph"⟩, ⟨2, "Other"⟩], [10], [(10, 1)], FileState.absent⟩ true).2
      (Or.inl rfl)⟩

/-- Claim C6: the reverse migration, on a missing or malformed state file,
restores no program associations (the link table is unchanged) while still
re-creating the AdminMorph registry row; it is a total function, as the
source catches `OSError` and `ValueError` around the file read. -/
theorem restore_adminmorph_tolerates_bad_file (w : MigWorld)
    (h : w.file = FileState.absent ∨ w.file = FileState.malformed) :
    (restore_adminmorph w).links = w.links
    ∧ ∃ m ∈ (restore_adminmorph w).modules, m.handler = "AdminMorph" := by
  have hids : read_state_ids w.file = [] := by
    rcases h with h | h <;> rw [h] <;> rfl
  have hmods : (restore_adminmorph w).modules = (adminmorph_target w.modules).2 := rfl
  constructor
  · show (w.links
        ++ ((w.programs.filter
              (fun q => (read_state_ids w.file).contains q)).map
            (fun q => (q, (adminmorph_target w.modules).1))).filter
          (fun l => !(w.links.contains l)))
      = w.links
    rw [hids]
    simp
  · rw [hmods]
    cases hf : w.modules.find? (fun m => m.handler == "AdminMorph") with
    | some m =>
      have ht : (adminmorph_target w.modules).2 = w.modules := by
        unfold adminmorph_target
        rw [hf]
      rw [ht]
      refine ⟨m, List.mem_of_find?_eq_some hf, ?_⟩
      have := List.find?_some hf
      simpa using this
    | none =>
      have ht : (adminmorph_target w.modules).2
          = w.modules ++ [{ id := fresh_module_id w.modules, handler := "AdminMorph" }] := by
        unfold adminmorph_target
        rw [hf]
      rw [ht]
      exact ⟨{ id := fresh_module_id w.modules, handler := "AdminMorph" },
        List.mem_append_right _ (List.mem_singleton.mpr rfl), rfl⟩

/-- Witness for C6: a world with a malformed state file and no AdminMorph
row: the links are unchanged and the registry row is re-created. -/
theorem restore_adminmorph_tolerates_bad_file_witness :
    (restore_adminmorph ⟨[⟨2, "Other"⟩], [10, 11], [(10, 2)], FileState.malformed⟩).links
      = [(10, 2)]
    ∧ ∃ m ∈ (restore_adminmorph
        ⟨[⟨2, "Other"⟩], [10, 11], [(10, 2)], FileState.malformed⟩).modules,
      m.handler = "AdminMorph" :=
  restore_adminmorph_tolerates_bad_file
    ⟨[⟨2, "Other"⟩], [10, 11], [(10, 2)], FileState.malformed⟩ (Or.inr rfl)

/-- Claim C7 (code bug): `build_email_body` decides whether to escape by
`message.get_content_type()`, the content type of the whole message, not
of the preferred body part.  For a `multipart/alternative` message whose
preferred representation is HTML — exactly what the repository's own test
`test_html_content_preserved` constructs — the HTML content is escaped,
although the claim (and the test) say it is preserved unescaped. -/
theorem build_email_body_escapes_html_alternative :
    (EmailMsg.mk "<p>Hello <b>world</b></p>" true "multipart/alternative").preferred_is_html
      = true
    ∧ build_email_body (EmailMsg.mk "<p>Hello <b>world</b></p>" true "multipart/alternative")
        = skeleton_head ++ htmlEscape "<p>Hello <b>world</b></p>" ++ skeleton_tail
    ∧ build_email_body (EmailMsg.mk "<p>Hello <b>world</b></p>" true "multipart/alternative")
        ≠ skeleton_head ++ "<p>Hello <b>world</b></p>" ++ skeleton_tail := by
  refine ⟨rfl, rfl, ?_⟩
  decide

end ESPWeb
